import Mathlib

/-!
Shallow embedding of `src/util/env_hdfs.cc` (the HDFS environment adapter of
rocksdb) and proofs about the claims on its behaviour.

The adapter wraps the external libhdfs client.  Each embedded operation takes
the responses of the remote client (return codes, byte counts, stat results)
as explicit parameters and reproduces the C++ control flow exactly.  Every
operation also reports the list of remote calls it issued, so that claims
about call ordering ("the size query is made only on a short read", "sync runs
only after a successful flush") can be stated directly.
-/

/-- `rocksdb::Status` as used in `env_hdfs.cc`: `Status::OK()`,
`IOError(context, strerror(errno))` (the `strerror` detail is abstracted away)
and `Status::NotSupported(msg)`. -/
inductive Status where
  | ok : Status
  | ioError (context : String) : Status
  | notSupported (msg : String) : Status
deriving DecidableEq

/-- `Status::ok()`. -/
def Status.isOk : Status → Bool
  | .ok => true
  | _ => false

/-- One call into the libhdfs client, recorded so the theorems can talk about
which remote primitives an operation issues and in which order. -/
inductive HCall where
  | hRead (n : Nat)
  | hPread (offset : Nat) (n : Nat)
  | hTell
  | hSeek (target : Int)
  | hGetPathInfo
  | hFlush
  | hSync
  | hCloseFile
  | hDelete (path : String)
  | hRename (src : String) (dst : String)
  | hExists (path : String)
  | hListDir (path : String)
deriving DecidableEq

/-- The C++ conversion of a (possibly negative) integer to `size_t`:
reduction modulo `2^64`.  `HdfsReadableFile::Read` stores the `tSize` result
of `hdfsRead` into a `size_t` local this way. -/
def toSizeT (r : Int) : Nat := (r % (2 : Int) ^ 64).toNat

/-- The remote client's responses consumed by a sequential `Read`:
the return value of `hdfsRead`, the return value of `hdfsTell` (used by
`feof`), and the `mSize` field of `hdfsGetPathInfo` when that call succeeds
(`none` models a null `hdfsFileInfo*`, on which `fileSize` throws). -/
structure SeqReadEnv where
  readRes : Int
  tellRes : Int
  pathInfoSize : Option Int
deriving DecidableEq

/-- Outcome of an operation that may throw `HdfsFatalException`:
either a normal return (`Status` plus the byte count placed in the result
slice) or a thrown exception. -/
inductive ReadOutcome where
  | ret (st : Status) (bytes : Nat)
  | fatal (msg : String)
deriving DecidableEq

structure SeqReadResult where
  calls : List HCall
  outcome : ReadOutcome
deriving DecidableEq

/-- Wrapper state of `HdfsReadableFile`: the file name and the handle
returned by `hdfsOpenFile` in the constructor (`none` = null handle). -/
structure HdfsReadableFile where
  filename : String
  hfile : Option Unit
deriving DecidableEq

/-- `HdfsReadableFile::isValid`. -/
def HdfsReadableFile.isValid (f : HdfsReadableFile) : Bool := f.hfile.isSome

/-- The `HdfsReadableFile` constructor: `hfile_ = hdfsOpenFile(...)`. -/
def mkReadable (fname : String) (openRes : Option Unit) : HdfsReadableFile :=
  ⟨fname, openRes⟩

/-- Sequential `HdfsReadableFile::Read(n, result, scratch)`:
`size_t bytes_read = hdfsRead(...)`; the result slice gets `bytes_read`
bytes; if `bytes_read < n` the code consults `feof()`, which compares
`hdfsTell` against `fileSize()` (a fresh `hdfsGetPathInfo` stat that throws
`HdfsFatalException` when the stat returns null); at end of file the status
stays OK, otherwise it becomes `IOError`. -/
def HdfsReadableFile.Read (f : HdfsReadableFile) (env : SeqReadEnv) (n : Nat) :
    SeqReadResult :=
  let bytesRead := toSizeT env.readRes
  if bytesRead < n then
    match env.pathInfoSize with
    | none =>
        ⟨[.hRead n, .hTell, .hGetPathInfo],
          .fatal ("fileSize on unknown file " ++ f.filename)⟩
    | some size =>
        if env.tellRes = size then
          ⟨[.hRead n, .hTell, .hGetPathInfo], .ret .ok bytesRead⟩
        else
          ⟨[.hRead n, .hTell, .hGetPathInfo], .ret (.ioError f.filename) bytesRead⟩
  else
    ⟨[.hRead n], .ret .ok bytesRead⟩

/-- Positioned `HdfsReadableFile::Read(offset, n, result, scratch)`:
`ssize_t bytes_read = hdfsPread(...)`; the result slice gets
`(bytes_read < 0) ? 0 : bytes_read` bytes and a negative count becomes
`IOError`; no `feof`/size query is involved. -/
def HdfsReadableFile.ReadAt (f : HdfsReadableFile) (preadRes : Int)
    (offset n : Nat) : Status × Nat × List HCall :=
  if preadRes < 0 then
    (.ioError f.filename, 0, [.hPread offset n])
  else
    (.ok, preadRes.toNat, [.hPread offset n])

/-- The remote client's responses consumed by `Skip`: the return value of
`hdfsTell` and, for each possible target offset, the return value of
`hdfsSeek`. -/
structure SkipEnv where
  tellRes : Int
  seekRes : Int → Int

/-- `HdfsReadableFile::Skip(n)`: `hdfsTell`; negative → `IOError`; otherwise
seek to `current + n`; negative seek result → `IOError`; else OK. -/
def HdfsReadableFile.Skip (f : HdfsReadableFile) (env : SkipEnv) (n : Nat) :
    Status × List HCall :=
  if env.tellRes < 0 then
    (.ioError f.filename, [.hTell])
  else
    if env.seekRes (env.tellRes + n) < 0 then
      (.ioError f.filename, [.hTell, .hSeek (env.tellRes + n)])
    else
      (.ok, [.hTell, .hSeek (env.tellRes + n)])

/-- Wrapper state of `HdfsWritableFile`: file name plus the handle from
`hdfsOpenFile` (`none` = null, i.e. released or never opened). -/
structure HdfsWritableFile where
  filename : String
  hfile : Option Unit
deriving DecidableEq

/-- `HdfsWritableFile::isValid`. -/
def HdfsWritableFile.isValid (f : HdfsWritableFile) : Bool := f.hfile.isSome

/-- The `HdfsWritableFile` constructor. -/
def mkWritable (fname : String) (openRes : Option Unit) : HdfsWritableFile :=
  ⟨fname, openRes⟩

/-- `HdfsWritableFile::Flush`: returns OK immediately, no remote call. -/
def HdfsWritableFile.Flush : Status × List HCall := (.ok, [])

/-- `HdfsWritableFile::Sync`: `hdfsFlush`, and if its result is `-1` return
`IOError` without calling `hdfsSync`; otherwise `hdfsSync`, `-1` →
`IOError`, else OK. -/
def HdfsWritableFile.Sync (f : HdfsWritableFile) (flushRes syncRes : Int) :
    Status × List HCall :=
  if flushRes = -1 then
    (.ioError f.filename, [.hFlush])
  else if syncRes = -1 then
    (.ioError f.filename, [.hFlush, .hSync])
  else
    (.ok, [.hFlush, .hSync])

/-- `HdfsWritableFile::Close`: calls `hdfsCloseFile`; a nonzero return is an
early `return IOError(...)` that leaves `hfile_` untouched; only on success
is `hfile_` set to null. -/
def HdfsWritableFile.Close (f : HdfsWritableFile) (closeRes : Int) :
    Status × HdfsWritableFile × List HCall :=
  if closeRes ≠ 0 then
    (.ioError f.filename, f, [.hCloseFile])
  else
    (.ok, { f with hfile := none }, [.hCloseFile])

/-- `HdfsWritableFile::~HdfsWritableFile`: closes the handle iff `hfile_` is
still non-null. -/
def HdfsWritableFile.dtor (f : HdfsWritableFile) :
    HdfsWritableFile × List HCall :=
  if f.hfile.isSome then ({ f with hfile := none }, [.hCloseFile]) else (f, [])

/-- Capacity of the stack buffer in `HdfsLogger::Logv` (`char buffer[500]`). -/
def smallBufSize : Nat := 500

/-- Capacity of the heap buffer in `HdfsLogger::Logv` (`bufsize = 30000`). -/
def largeBufSize : Nat := 30000

/-- Whether the byte sequence is nonempty and its last byte is a newline —
the negation of the `p == base || p[-1] != '\n'` test in `Logv`. -/
def endsNl (s : List Char) : Bool := s.getLast? == some '\n'

/-- The newline step of `Logv`: append one newline exactly when the buffer
is empty or its last byte is not already a newline. -/
def addNl (s : List Char) : List Char := if endsNl s then s else s ++ ['\n']

/-- One formatting pass of `HdfsLogger::Logv`, modelled over the bytes it
produces.  `hdr` is the timestamp/thread-id header written by `snprintf`,
`msg` the fully formatted message of `vsnprintf`; both return the would-be
length, so `p` reaches `hdr.length + msg.length` and the overflow test
`p >= limit` compares that total with the buffer size.  At the first
iteration an overflow restarts with the 30000-byte buffer; at the second it
truncates the buffer content to `capacity - 1` bytes.  The function returns
the line content before the newline step, paired with the capacity of the
buffer used. -/
def logvContent (hdr msg : List Char) : List Char × Nat :=
  if hdr.length + msg.length < smallBufSize then
    (hdr ++ msg, smallBufSize)
  else if hdr.length + msg.length < largeBufSize then
    (hdr ++ msg, largeBufSize)
  else
    ((hdr ++ msg).take (largeBufSize - 1), largeBufSize)

/-- `HdfsLogger::Logv`: the bytes passed to `file_->Append(base, p - base)`. -/
def HdfsLogger.Logv (hdr msg : List Char) : List Char :=
  addNl (logvContent hdr msg).1

/-- Number of trailing newline bytes of the produced line. -/
def trailingNlCount (s : List Char) : Nat :=
  (s.reverse.takeWhile (fun c => c == '\n')).length

/-- `HdfsEnv::FileExists`: true exactly when `hdfsExists` returned 0. -/
def HdfsEnv.FileExists (existsRes : Int) : Bool :=
  if existsRes = 0 then true else false

/-- The `rindex(pathname, '/')` / `filename + 1` step of `GetChildren`:
the suffix after the last path separator, or `none` when the entry name
contains no separator (in which case the entry is skipped). -/
def afterLastSlash (s : String) : Option String :=
  if s.data.contains '/' then
    some (String.mk ((s.data.reverse.takeWhile (fun c => c != '/')).reverse))
  else
    none

/-- Outcome of `GetChildren`: a normal return (status plus the vector of
child names) or a thrown `HdfsFatalException`. -/
inductive GCOutcome where
  | ret (st : Status) (children : List String)
  | fatal (msg : String)
deriving DecidableEq

/-- `HdfsEnv::GetChildren`: switches on `hdfsExists`. Case 0 (present):
`hdfsListDirectory`; a non-negative entry count (`listRes = some entries`)
pushes, for each entry, the basename after the last `/` and silently skips
entries without one; a negative count (`listRes = none`) throws
`HdfsFatalException`.  Case 1 (absent): fall through to `Status::OK()` with
the result vector untouched (empty).  Any other value throws
`HdfsFatalException`. -/
def HdfsEnv.GetChildren (existsRes : Int) (listRes : Option (List String)) :
    GCOutcome :=
  if existsRes = 0 then
    match listRes with
    | some entries => .ret .ok (entries.filterMap afterLastSlash)
    | none => .fatal "hdfsListDirectory call failed negative error.\n"
  else if existsRes = 1 then
    .ret .ok []
  else
    .fatal "hdfsListDirectory call failed with error.\n"

/-- The filesystem view of the remote cluster: which paths exist.  Used to
settle the state-level part of the `RenameFile` claim. -/
def HdfsFs : Type := String → Bool

/-- Modelled from the spec: the collaborator `delete(path)` primitive
(libhdfs `hdfsDelete`, not part of this repository, §6 of the spec): it
removes the path, reporting success (0) when the path existed and failure
(-1) otherwise. -/
def hdfsDelete (fs : HdfsFs) (p : String) : HdfsFs × Int :=
  (fun q => if q = p then false else fs q, if fs p then 0 else -1)

/-- Modelled from the spec: the collaborator `rename(src, dst)` primitive
(libhdfs `hdfsRename`, not part of this repository).  Per the source
comment "HDFS does not allow a renaming if the target already exists", it
succeeds (0) exactly when src exists and dst does not, moving src to dst,
and otherwise reports -1 leaving the filesystem unchanged. -/
def hdfsRenameOp (fs : HdfsFs) (src dst : String) : HdfsFs × Int :=
  if fs src && !(fs dst) then
    (fun q => if q = dst then true else if q = src then false else fs q, 0)
  else
    (fs, -1)

/-- `HdfsEnv::RenameFile`: `hdfsDelete(target)` with its return value
discarded, then `hdfsRename(src, target)`; OK exactly when the rename
returned 0, else `IOError(src, ...)`. -/
def HdfsEnv.RenameFile (fs : HdfsFs) (src target : String) :
    Status × HdfsFs × List HCall :=
  if (hdfsRenameOp (hdfsDelete fs target).1 src target).2 = 0 then
    (.ok, (hdfsRenameOp (hdfsDelete fs target).1 src target).1,
      [.hDelete target, .hRename src target])
  else
    (.ioError src, (hdfsRenameOp (hdfsDelete fs target).1 src target).1,
      [.hDelete target, .hRename src target])

/-- `HdfsEnv::NewSequentialFile`: constructs an `HdfsReadableFile` (whose
constructor stores whatever `hdfsOpenFile` returned, possibly null) and
checks only `f == nullptr`.  `new` throws on allocation failure instead of
returning null, so that branch is unreachable and the factory always
returns OK with the wrapper, valid or not. -/
def HdfsEnv.NewSequentialFile (fname : String) (openRes : Option Unit) :
    Status × Option HdfsReadableFile :=
  (.ok, some (mkReadable fname openRes))

/-- `HdfsEnv::NewRandomAccessFile`: identical structure to
`NewSequentialFile`, including the unreachable null check. -/
def HdfsEnv.NewRandomAccessFile (fname : String) (openRes : Option Unit) :
    Status × Option HdfsReadableFile :=
  (.ok, some (mkReadable fname openRes))

/-- `HdfsEnv::NewWritableFile`: constructs an `HdfsWritableFile` and checks
`f == nullptr || !f->isValid()`; since `new` cannot return null this is
exactly the `isValid` test: an unusable handle yields `IOError` with a null
result. -/
def HdfsEnv.NewWritableFile (fname : String) (openRes : Option Unit) :
    Status × Option HdfsWritableFile :=
  if ¬ (mkWritable fname openRes).isValid then
    (.ioError fname, none)
  else
    (.ok, some (mkWritable fname openRes))

theorem toSizeT_ofNat (m : Nat) (h : m < 2 ^ 64) : toSizeT m = m := by
  unfold toSizeT
  rw [Int.emod_eq_of_lt (by positivity) (by exact_mod_cast h)]
  exact Int.toNat_ofNat m

theorem endsNl_addNl (s : List Char) : endsNl (addNl s) = true := by
  unfold addNl
  by_cases h : endsNl s
  · rw [if_pos h]
    exact h
  · rw [if_neg h]
    unfold endsNl
    rw [List.getLast?_concat]
    rfl

theorem length_addNl (s : List Char) : (addNl s).length ≤ s.length + 1 := by
  unfold addNl
  split
  · exact Nat.le_succ _
  · simp

theorem addNl_of_endsNl (s : List Char) (h : endsNl s = true) : addNl s = s := by
  simp [addNl, h]

theorem addNl_of_not_endsNl (s : List Char) (h : endsNl s = false) :
    addNl s = s ++ ['\n'] := by
  simp [addNl, h]

theorem hdfsRenameOp_code (fs : HdfsFs) (src dst : String) :
    (hdfsRenameOp fs src dst).2 = 0 ↔ (fs src = true ∧ fs dst = false) := by
  unfold hdfsRenameOp
  cases hs : fs src <;> cases hd : fs dst <;> simp [hs, hd]

theorem rev_split (r : List Char) (h : '/' ∈ r) :
    ∃ rest, r = r.takeWhile (fun c => c != '/') ++ '/' :: rest ∧
      '/' ∉ r.takeWhile (fun c => c != '/') := by
  induction r with
  | nil => cases h
  | cons c r' ih =>
    by_cases hc : c = '/'
    · subst hc
      refine ⟨r', ?_, ?_⟩
      · rw [List.takeWhile_cons]
        simp
      · rw [List.takeWhile_cons]
        simp
    · have hp : (c != '/') = true := by simpa using hc
      have hmem : '/' ∈ r' := by
        rcases List.mem_cons.mp h with h1 | h1
        · exact absurd h1.symm hc
        · exact h1
      rcases ih hmem with ⟨rest, heq, hnot⟩
      refine ⟨rest, ?_, ?_⟩
      · rw [List.takeWhile_cons, if_pos hp, List.cons_append]
        exact congrArg (c :: ·) heq
      · rw [List.takeWhile_cons, if_pos hp]
        intro hm
        rcases List.mem_cons.mp hm with h1 | h1
        · exact hc h1.symm
        · exact hnot h1

theorem afterLastSlash_some (s b : String) (h : afterLastSlash s = some b) :
    (∃ pre, s.data = pre ++ '/' :: b.data) ∧ '/' ∉ b.data := by
  unfold afterLastSlash at h
  by_cases hc : s.data.contains '/'
  · rw [if_pos hc] at h
    have hb : b.data = (s.data.reverse.takeWhile (fun c => c != '/')).reverse := by
      have := Option.some.inj h
      rw [← this]
    have hm : '/' ∈ s.data.reverse := by
      rw [List.mem_reverse]
      simpa using hc
    rcases rev_split s.data.reverse hm with ⟨rest, heq, hnot⟩
    constructor
    · refine ⟨rest.reverse, ?_⟩
      have h2 : s.data.reverse.reverse =
          (s.data.reverse.takeWhile (fun c => c != '/') ++ '/' :: rest).reverse :=
        congrArg List.reverse heq
      rw [List.reverse_reverse, List.reverse_append, List.reverse_cons,
        List.append_assoc] at h2
      rw [h2, hb]
      simp
    · rw [hb, List.mem_reverse]
      exact hnot
  · rw [if_neg hc] at h
    cases h

/-- Claim C7: a positioned `Read(offset, n)` maps a negative byte count from
`hdfsPread` to `IOError` with a zero-byte result, and returns any
non-negative count — even one smaller than `n` — as success with exactly
that many bytes; the positioned path never issues the tell/stat calls used
for EOF disambiguation. -/
theorem c7_pread (f : HdfsReadableFile) (preadRes : Int) (offset n : Nat) :
    (preadRes < 0 →
      f.ReadAt preadRes offset n = (.ioError f.filename, 0, [.hPread offset n])) ∧
    (0 ≤ preadRes →
      f.ReadAt preadRes offset n = (.ok, preadRes.toNat, [.hPread offset n])) ∧
    HCall.hGetPathInfo ∉ (f.ReadAt preadRes offset n).2.2 ∧
    HCall.hTell ∉ (f.ReadAt preadRes offset n).2.2 := by
  unfold HdfsReadableFile.ReadAt
  refine ⟨fun h => by rw [if_pos h], fun h => by rw [if_neg (not_lt.mpr h)], ?_, ?_⟩ <;>
    split <;> simp

theorem c7_pread_witness :
    (0 ≤ (2 : Int)) ∧
      (mkReadable "f" (some ())).ReadAt 2 10 5 = (.ok, 2, [.hPread 10 5]) :=
  ⟨by decide, (c7_pread (mkReadable "f" (some ())) 2 10 5).2.1 (by decide)⟩

/-- Claim C8: `Sync` issues the flush-to-buffer call first and the
durability-sync call second, issues the second call exactly when the first
succeeded, returns OK exactly when both succeeded and `IOError` otherwise;
`Flush` returns OK and performs no remote call. -/
theorem c8_sync_flush (f : HdfsWritableFile) (flushRes syncRes : Int) :
    ((f.Sync flushRes syncRes).2 = [.hFlush] ∨
      (f.Sync flushRes syncRes).2 = [.hFlush, .hSync]) ∧
    (HCall.hSync ∈ (f.Sync flushRes syncRes).2 ↔ flushRes ≠ -1) ∧
    ((f.Sync flushRes syncRes).1 = .ok ↔ (flushRes ≠ -1 ∧ syncRes ≠ -1)) ∧
    ((f.Sync flushRes syncRes).1 ≠ .ok →
      (f.Sync flushRes syncRes).1 = .ioError f.filename) ∧
    HdfsWritableFile.Flush = (Status.ok, ([] : List HCall)) := by
  unfold HdfsWritableFile.Sync HdfsWritableFile.Flush
  by_cases h1 : flushRes = -1
  · simp [h1]
  · by_cases h2 : syncRes = -1 <;> simp [h1, h2]

theorem c8_sync_flush_witness :
    ((mkWritable "f" (some ())).Sync 0 0).1 = .ok ↔ ((0 : Int) ≠ -1 ∧ (0 : Int) ≠ -1) :=
  (c8_sync_flush (mkWritable "f" (some ())) 0 0).2.2.1

/-- Claim C10: `FileExists` is true exactly when `hdfsExists` returned 0;
every nonzero return — "absent" (1) and backend failure (e.g. -1) alike —
yields false, so a backend failure is indistinguishable from absence. -/
theorem c10_fileExists (r s : Int) :
    (HdfsEnv.FileExists r = true ↔ r = 0) ∧
    (r ≠ 0 → HdfsEnv.FileExists r = false) ∧
    (r ≠ 0 → s ≠ 0 → HdfsEnv.FileExists r = HdfsEnv.FileExists s) := by
  unfold HdfsEnv.FileExists
  by_cases hr : r = 0
  · simp [hr]
  · by_cases hs : s = 0 <;> simp [hr, hs]

theorem c10_fileExists_witness :
    HdfsEnv.FileExists (-1) = true ↔ (-1 : Int) = 0 :=
  (c10_fileExists (-1) 1).1

/-- Claim C1: when a sequential `Read(n)` transfers fewer than `n` bytes and
the stat query answers with size `size`, the result is OK with the short
byte count exactly when the cursor (`hdfsTell`) equals the file size, and it
is `IOError` whenever the cursor is still below the file size; the stat
query (`hdfsGetPathInfo`) is issued on this short read, and never on a read
whose transferred count reaches `n`. -/
theorem c1_sequential_read_eof (f : HdfsReadableFile) (env : SeqReadEnv)
    (n : Nat) (size : Int) (hshort : toSizeT env.readRes < n)
    (hstat : env.pathInfoSize = some size) :
    ((f.Read env n).outcome = .ret .ok (toSizeT env.readRes) ↔
      env.tellRes = size) ∧
    (env.tellRes < size →
      (f.Read env n).outcome = .ret (.ioError f.filename) (toSizeT env.readRes)) ∧
    HCall.hGetPathInfo ∈ (f.Read env n).calls ∧
    (∀ m : Nat, m ≤ toSizeT env.readRes →
      (f.Read env m).outcome = .ret .ok (toSizeT env.readRes) ∧
        HCall.hGetPathInfo ∉ (f.Read env m).calls) := by
  unfold HdfsReadableFile.Read
  rw [hstat]
  refine ⟨?_, ?_, ?_, ?_⟩
  · simp only [if_pos hshort]
    by_cases h : env.tellRes = size <;> simp [h]
  · intro hlt
    simp only [if_pos hshort, if_neg (ne_of_lt hlt)]
  · simp only [if_pos hshort]
    split <;> simp
  · intro m hm
    rw [if_neg (not_lt.mpr hm)]
    simp

theorem c1_sequential_read_eof_witness :
    toSizeT 2 < 5 ∧
      (SeqReadEnv.mk 2 7 (some 7)).pathInfoSize = some 7 ∧
      ((mkReadable "f" (some ())).Read (SeqReadEnv.mk 2 7 (some 7)) 5).outcome =
        .ret .ok (toSizeT 2) :=
  ⟨by decide, rfl,
    (c1_sequential_read_eof (mkReadable "f" (some ())) (SeqReadEnv.mk 2 7 (some 7))
      5 7 (by decide) rfl).1.mpr rfl⟩

/-- Claim C6: `Skip(n)` first issues the tell primitive and fails with
`IOError` when it reports a negative offset; otherwise it seeks to
`offset + n`, failing with `IOError` when the seek fails and succeeding
otherwise; for `n = 0` the seek target is the current offset itself, so a
successful seek leaves the cursor unchanged and `Skip(0)` returns OK. -/
theorem c6_skip (f : HdfsReadableFile) (env : SkipEnv) (n : Nat) :
    (env.tellRes < 0 → f.Skip env n = (.ioError f.filename, [.hTell])) ∧
    (0 ≤ env.tellRes →
      (f.Skip env n).2 = [.hTell, .hSeek (env.tellRes + n)] ∧
      (env.seekRes (env.tellRes + n) < 0 →
        (f.Skip env n).1 = .ioError f.filename) ∧
      (0 ≤ env.seekRes (env.tellRes + n) → (f.Skip env n).1 = .ok)) ∧
    (n = 0 → 0 ≤ env.tellRes → 0 ≤ env.seekRes env.tellRes →
      f.Skip env 0 = (.ok, [.hTell, .hSeek env.tellRes])) := by
  unfold HdfsReadableFile.Skip
  refine ⟨fun h => by rw [if_pos h], fun h => ?_, fun hn h hs => ?_⟩
  · rw [if_neg (not_lt.mpr h)]
    refine ⟨by split <;> rfl, fun hs => by rw [if_pos hs], fun hs => by
      rw [if_neg (not_lt.mpr hs)]⟩
  · rw [if_neg (not_lt.mpr h)]
    simp only [Nat.cast_zero, add_zero] at hs ⊢
    rw [if_neg (not_lt.mpr hs)]

/-- Claim C2 (refuted — code bug): when `hdfsOpenFile` fails (null handle),
`NewSequentialFile` and `NewRandomAccessFile` still return `Status::OK`
together with a wrapper whose `isValid()` is false, because they test the
unreachable `f == nullptr` instead of `!f->isValid()`; only
`NewWritableFile` performs the validity check the claim describes and
returns `IOError` with a null result. -/
theorem c2_factory_invalid_handle :
    (HdfsEnv.NewSequentialFile "f" none).1 = .ok ∧
    (HdfsEnv.NewSequentialFile "f" none).2 = some (mkReadable "f" none) ∧
    (mkReadable "f" none).isValid = false ∧
    (HdfsEnv.NewRandomAccessFile "f" none).1 = .ok ∧
    (HdfsEnv.NewRandomAccessFile "f" none).2 = some (mkReadable "f" none) ∧
    HdfsEnv.NewWritableFile "f" none = (.ioError "f", none) ∧
    HdfsEnv.NewWritableFile "f" (some ()) = (.ok, some (mkWritable "f" (some ()))) := by
  exact ⟨rfl, rfl, rfl, rfl, rfl, rfl, rfl⟩

/-- Claim C3 counterexample: with an open handle and a failing remote close
(`hdfsCloseFile` returns 1), `Close` returns `IOError` but does NOT mark the
handle released (`hfile_` is still set), and the destructor then issues
`hdfsCloseFile` a second time — refuting "still marking the handle released
locally, so that the handle is never closed a second time". -/
theorem c3_close_counterexample :
    ((mkWritable "f" (some ())).Close 1).1 = .ioError "f" ∧
    ((mkWritable "f" (some ())).Close 1).2.1.hfile = some () ∧
    (((mkWritable "f" (some ())).Close 1).2.1.dtor).2 = [.hCloseFile] := by
  refine ⟨rfl, rfl, rfl⟩

/-- Claim C3 as amended: `Close` always issues the remote close; on success
it returns OK and marks the handle released, so the destructor performs no
further close; on failure it returns `IOError` leaving the handle still
held, and the destructor will then issue the remote close a second time. -/
theorem c3_close_amended (f : HdfsWritableFile) (closeRes : Int) :
    ((f.Close closeRes).2.2 = [.hCloseFile]) ∧
    (closeRes = 0 →
      (f.Close closeRes).1 = .ok ∧
      (f.Close closeRes).2.1.hfile = none ∧
      ((f.Close closeRes).2.1.dtor).2 = []) ∧
    (closeRes ≠ 0 →
      (f.Close closeRes).1 = .ioError f.filename ∧
      (f.Close closeRes).2.1 = f ∧
      (f.hfile.isSome → ((f.Close closeRes).2.1.dtor).2 = [.hCloseFile])) := by
  by_cases h : closeRes = 0
  · simp [HdfsWritableFile.Close, HdfsWritableFile.dtor, h]
  · simp only [HdfsWritableFile.Close, HdfsWritableFile.dtor, if_pos h, ne_eq, h,
      not_false_eq_true, IsEmpty.forall_iff, true_and, forall_const]
    refine ⟨rfl, ⟨rfl, rfl, fun hs => ?_⟩⟩
    simp [hs]

theorem c3_close_amended_witness :
    (1 : Int) ≠ 0 ∧
      ((mkWritable "f" (some ())).Close 1).1 = .ioError "f" :=
  ⟨by decide, ((c3_close_amended (mkWritable "f" (some ())) 1).2.2 (by decide)).1⟩

/-- Claim C4 counterexample: the claim asserts the produced line "always
ends with exactly one trailing newline", but when the message itself ends
in newlines the code appends nothing (the last written byte is already a
newline) and the line ends with more than one: with message bytes
`a\n\n` the produced line has two trailing newlines. -/
theorem c4_logv_counterexample :
    trailingNlCount (HdfsLogger.Logv [Char.ofNat 120, Char.ofNat 32]
      [Char.ofNat 97, Char.ofNat 10, Char.ofNat 10]) = 2 ∧
    trailingNlCount (HdfsLogger.Logv [Char.ofNat 120, Char.ofNat 32]
      [Char.ofNat 97, Char.ofNat 10, Char.ofNat 10]) ≠ 1 := by
  constructor
  · rfl
  · decide

/-- Claim C4 as amended: `Logv` never produces more bytes than the capacity
of the buffer it used; a content that fits the 500-byte stack buffer is
emitted from it, one that exceeds it but fits the 30000-byte heap buffer is
reformatted there, and one that exceeds even that is truncated to the
buffer's capacity minus one byte; the produced line always ends with at
least one trailing newline, a newline being appended exactly when the last
written byte is not already a newline (so at most one is ever added). -/
theorem c4_logv_amended (hdr msg : List Char) :
    (HdfsLogger.Logv hdr msg).length ≤ (logvContent hdr msg).2 ∧
    (logvContent hdr msg).2 ≤ largeBufSize ∧
    endsNl (HdfsLogger.Logv hdr msg) = true ∧
    (hdr.length + msg.length < smallBufSize →
      logvContent hdr msg = (hdr ++ msg, smallBufSize)) ∧
    (smallBufSize ≤ hdr.length + msg.length →
      hdr.length + msg.length < largeBufSize →
      logvContent hdr msg = (hdr ++ msg, largeBufSize)) ∧
    (largeBufSize ≤ hdr.length + msg.length →
      logvContent hdr msg = ((hdr ++ msg).take (largeBufSize - 1), largeBufSize)) ∧
    (endsNl (logvContent hdr msg).1 = true →
      HdfsLogger.Logv hdr msg = (logvContent hdr msg).1) ∧
    (endsNl (logvContent hdr msg).1 = false →
      HdfsLogger.Logv hdr msg = (logvContent hdr msg).1 ++ [Char.ofNat 10]) := by
  refine ⟨?_, ?_, endsNl_addNl _, ?_, ?_, ?_,
    fun h => addNl_of_endsNl _ h, fun h => addNl_of_not_endsNl _ h⟩
  · unfold HdfsLogger.Logv logvContent
    by_cases h1 : hdr.length + msg.length < smallBufSize
    · rw [if_pos h1]
      dsimp only
      have h2 := length_addNl (hdr ++ msg)
      have hl : (hdr ++ msg).length = hdr.length + msg.length := List.length_append _ _
      omega
    · rw [if_neg h1]
      by_cases h2 : hdr.length + msg.length < largeBufSize
      · rw [if_pos h2]
        dsimp only
        have h3 := length_addNl (hdr ++ msg)
        have hl : (hdr ++ msg).length = hdr.length + msg.length := List.length_append _ _
        omega
      · rw [if_neg h2]
        dsimp only
        have h3 := length_addNl ((hdr ++ msg).take (largeBufSize - 1))
        have hl : ((hdr ++ msg).take (largeBufSize - 1)).length ≤ largeBufSize - 1 := by
          rw [List.length_take]
          exact min_le_left _ _
        have hpos : 1 ≤ largeBufSize := by decide
        omega
  · unfold logvContent
    split
    · exact (by decide : smallBufSize ≤ largeBufSize)
    · split <;> exact le_refl _
  · intro h1
    unfold logvContent
    rw [if_pos h1]
  · intro h1 h2
    unfold logvContent
    rw [if_neg (not_lt.mpr h1), if_pos h2]
  · intro h1
    unfold logvContent
    rw [if_neg (not_lt.mpr (le_trans (by decide) h1)), if_neg (not_lt.mpr h1)]

theorem c4_logv_amended_witness :
    [Char.ofNat 104].length + [Char.ofNat 97].length < smallBufSize ∧
      logvContent [Char.ofNat 104] [Char.ofNat 97] =
        ([Char.ofNat 104] ++ [Char.ofNat 97], smallBufSize) :=
  ⟨by decide, (c4_logv_amended [Char.ofNat 104] [Char.ofNat 97]).2.2.2.1 (by decide)⟩

theorem c6_skip_witness :
    (0 : Int) ≤ 4 ∧ 0 ≤ (fun _ : Int => (0 : Int)) 4 ∧
      (mkReadable "f" (some ())).Skip (SkipEnv.mk 4 (fun _ => 0)) 0 =
        (.ok, [.hTell, .hSeek 4]) :=
  ⟨by decide, by decide,
    (c6_skip (mkReadable "f" (some ())) (SkipEnv.mk 4 (fun _ => 0)) 0).2.2
      rfl (by decide) (by decide)⟩

/-- Claim C5: `GetChildren` returns OK with an empty vector when the path
is absent (`hdfsExists` = 1); when the listing reports a non-negative entry
count it returns OK with exactly the basenames (the suffix after the last
`/`, a suffix that itself contains no further separator) of those entries
whose full name contains a path separator, silently dropping the others;
a negative entry count, or any `hdfsExists` value other than 0 and 1,
throws `HdfsFatalException` instead of returning an error status. -/
theorem c5_getChildren (existsRes : Int) (listRes : Option (List String)) :
    (existsRes = 1 → HdfsEnv.GetChildren existsRes listRes = .ret .ok []) ∧
    (∀ entries, existsRes = 0 → listRes = some entries →
      HdfsEnv.GetChildren existsRes listRes =
        .ret .ok (entries.filterMap afterLastSlash)) ∧
    (∀ s : String, (afterLastSlash s).isSome = s.data.contains '/') ∧
    (∀ s b : String, afterLastSlash s = some b →
      (∃ pre, s.data = pre ++ '/' :: b.data) ∧ '/' ∉ b.data) ∧
    (existsRes = 0 → listRes = none →
      HdfsEnv.GetChildren existsRes listRes =
        .fatal "hdfsListDirectory call failed negative error.\n") ∧
    (existsRes ≠ 0 → existsRes ≠ 1 →
      HdfsEnv.GetChildren existsRes listRes =
        .fatal "hdfsListDirectory call failed with error.\n") := by
  refine ⟨?_, ?_, ?_, fun s b h => afterLastSlash_some s b h, ?_, ?_⟩
  · intro h1
    unfold HdfsEnv.GetChildren
    rw [if_neg (by rw [h1]; decide), if_pos h1]
  · intro entries h0 hl
    unfold HdfsEnv.GetChildren
    rw [if_pos h0, hl]
  · intro s
    unfold afterLastSlash
    cases hc : s.data.contains '/'
    · rw [if_neg (by simp [hc])]
      rfl
    · rw [if_pos (by simp [hc])]
      rfl
  · intro h0 hl
    unfold HdfsEnv.GetChildren
    rw [if_pos h0, hl]
  · intro h0 h1
    unfold HdfsEnv.GetChildren
    rw [if_neg h0, if_neg h1]

theorem c5_getChildren_witness :
    (0 : Int) = 0 ∧
      (some ["dir/a", "plain", "x/y/z"] : Option (List String)) =
        some ["dir/a", "plain", "x/y/z"] ∧
      HdfsEnv.GetChildren 0 (some ["dir/a", "plain", "x/y/z"]) =
        .ret .ok (["dir/a", "plain", "x/y/z"].filterMap afterLastSlash) ∧
      ["dir/a", "plain", "x/y/z"].filterMap afterLastSlash = ["a", "z"] :=
  ⟨rfl, rfl,
    (c5_getChildren 0 (some ["dir/a", "plain", "x/y/z"])).2.1
      ["dir/a", "plain", "x/y/z"] rfl rfl,
    by decide⟩

/-- Claim C9: `RenameFile(src, dst)` always issues the delete of dst first
and then the rename — the delete's return value is never consulted; the
status is OK exactly when the rename (on the state with dst already
deleted) succeeds, and `IOError(src)` otherwise; in particular when dst
pre-existed and src does not exist, the call surfaces `IOError` and leaves
a filesystem containing neither src nor dst. -/
theorem c9_renameFile (fs : HdfsFs) (src target : String) :
    (HdfsEnv.RenameFile fs src target).2.2 =
      [.hDelete target, .hRename src target] ∧
    ((HdfsEnv.RenameFile fs src target).1 = .ok ↔
      ((hdfsDelete fs target).1 src = true ∧
        (hdfsDelete fs target).1 target = false)) ∧
    ((HdfsEnv.RenameFile fs src target).1 ≠ .ok →
      (HdfsEnv.RenameFile fs src target).1 = .ioError src) ∧
    (fs target = true → fs src = false →
      (HdfsEnv.RenameFile fs src target).1 = .ioError src ∧
      (HdfsEnv.RenameFile fs src target).2.1 src = false ∧
      (HdfsEnv.RenameFile fs src target).2.1 target = false) := by
  have hcode := hdfsRenameOp_code ((hdfsDelete fs target).1) src target
  refine ⟨?_, ?_, ?_, ?_⟩
  · unfold HdfsEnv.RenameFile
    split <;> rfl
  · have hok : (HdfsEnv.RenameFile fs src target).1 = .ok ↔
        (hdfsRenameOp (hdfsDelete fs target).1 src target).2 = 0 := by
      unfold HdfsEnv.RenameFile
      split
      · next h => exact Iff.intro (fun _ => h) (fun _ => rfl)
      · next h => exact Iff.intro (fun hc => nomatch hc) (fun hc => absurd hc h)
    exact hok.trans hcode
  · unfold HdfsEnv.RenameFile
    split
    · intro h
      exact absurd rfl h
    · intro _
      rfl
  · intro htgt hsrc
    have h1 : (hdfsDelete fs target).1 src = false := by
      show (if src = target then false else fs src) = false
      by_cases hst : src = target
      · rw [if_pos hst]
      · rw [if_neg hst]
        exact hsrc
    have hfail : ¬ (hdfsRenameOp (hdfsDelete fs target).1 src target).2 = 0 := by
      intro h0
      have hc := hcode.mp h0
      rw [h1] at hc
      cases hc.1
    have hstate : (hdfsRenameOp (hdfsDelete fs target).1 src target).1 =
        (hdfsDelete fs target).1 := by
      unfold hdfsRenameOp
      rw [if_neg (by rw [h1]; simp)]
    unfold HdfsEnv.RenameFile
    rw [if_neg hfail]
    refine ⟨rfl, ?_, ?_⟩
    · show (hdfsRenameOp (hdfsDelete fs target).1 src target).1 src = false
      rw [hstate]
      exact h1
    · show (hdfsRenameOp (hdfsDelete fs target).1 src target).1 target = false
      rw [hstate]
      show (if target = target then false else fs target) = false
      rw [if_pos rfl]

theorem c9_renameFile_witness :
    (fun p : String => p == "b") "b" = true ∧
      (fun p : String => p == "b") "a" = false ∧
      (HdfsEnv.RenameFile (fun p => p == "b") "a" "b").1 = .ioError "a" ∧
      (HdfsEnv.RenameFile (fun p => p == "b") "a" "b").2.1 "a" = false ∧
      (HdfsEnv.RenameFile (fun p => p == "b") "a" "b").2.1 "b" = false :=
  ⟨by decide, by decide,
    ((c9_renameFile (fun p => p == "b") "a" "b").2.2.2 (by decide) (by decide)).1,
    ((c9_renameFile (fun p => p == "b") "a" "b").2.2.2 (by decide) (by decide)).2.1,
    ((c9_renameFile (fun p => p == "b") "a" "b").2.2.2 (by decide) (by decide)).2.2⟩
